import Mathlib

/-!
Shallow embedding of the data-grid engine of `src/App.tsx` (Ado-Analyst-Pro):
scalar cell values, rows, the query pipeline (filter, search, sort), viewport
windowing, cell mutation, column reorder, row deduplication and persisted-state
rehydration are translated from the source. JavaScript numbers are modelled as
exact rationals and JavaScript string/number coercions by the executable
functions below.
-/

/-- Scalar value held in a grid cell, modelling a JavaScript runtime value: a
finite number (JS floats modelled as rationals), the number `NaN`, a string,
`null`, or `undefined` (also the result of reading an absent key). -/
inductive JsValue where
  | vnum (q : ℚ)
  | vnan
  | vstr (s : String)
  | vnull
  | vundef
deriving DecidableEq

/-- Row of the Row Store: one record object, modelled as the ordered
association list of its keys, exactly as built by the CSV importer
(`headers.reduce`, App.tsx:337-341). -/
abbrev Row : Type := List (String × JsValue)

/-- JS property read `row[col]`: the value at the first matching key, or
`undefined` when the key is absent. -/
def getField (row : Row) (col : String) : JsValue :=
  match row.find? (fun p => p.1 == col) with
  | some p => p.2
  | none => JsValue.vundef

/-- JS spread update `\x7b ...row, [col]: v \x7d`: replaces the value at an
existing key in place (key order kept), otherwise appends the key at the end. -/
def setField (row : Row) (col : String) (v : JsValue) : Row :=
  if row.any (fun p => p.1 == col) then
    row.map (fun p => if p.1 == col then (col, v) else p)
  else row ++ [(col, v)]

/-- The result of JavaScript `String(v)`. Integral numbers render as in JS;
non-integral rationals use the `num/den` rendering, a fixed injective encoding
standing in for JS float formatting, on which no claim depends. -/
def stringOfValue : JsValue → String
  | .vnum q => if q.den = 1 then toString q.num else toString q
  | .vnan => "NaN"
  | .vstr s => s
  | .vnull => "null"
  | .vundef => "undefined"

/-- Does `hay` contain `needle` as a contiguous sublist? Models JS
`includes` on the character lists of the two strings. -/
def containsSub (needle : List Char) : List Char → Bool
  | [] => needle.isEmpty
  | c :: t => needle.isPrefixOf (c :: t) || containsSub needle t

/-- JS `s.includes(sub)`. -/
def jsIncludes (s sub : String) : Bool := containsSub sub.data s.data

/-- Numeric value of a decimal digit list, most significant digit first. -/
def natOfDigits (ds : List Char) : ℕ :=
  ds.foldl (fun acc c => 10 * acc + (c.toNat - 48)) 0

/-- Unsigned part of JS `Number(s)` on a trimmed nonempty string: decimal
digits with an optional fractional part (`"5."` and `".5"` are accepted, as in
JS). The hexadecimal and exponent forms of JS are not modelled; no claim
touches them. `none` models NaN. -/
def parseDecimal (cs : List Char) : Option ℚ :=
  let intPart := cs.takeWhile Char.isDigit
  let rest := cs.dropWhile Char.isDigit
  match rest with
  | [] => if intPart.isEmpty then none else some (natOfDigits intPart)
  | '.' :: frac =>
    if frac.all Char.isDigit && !(intPart.isEmpty && frac.isEmpty) then
      some ((natOfDigits intPart : ℚ) + (natOfDigits frac : ℚ) / (10 : ℚ) ^ frac.length)
    else none
  | _ => none

/-- Whitespace characters stripped by JS `Number` coercion; the common code
points are modelled. -/
def isJsSpace (c : Char) : Bool :=
  c == ' ' || c == '\n' || c == '\t' || c == '\r'

/-- Leading and trailing whitespace removed, on the character list. -/
def trimChars (cs : List Char) : List Char :=
  ((cs.dropWhile isJsSpace).reverse.dropWhile isJsSpace).reverse

/-- JS `Number(s)` for a string argument: whitespace-trimmed; the empty (or
all-whitespace) string coerces to `0`; otherwise an optional sign followed by a
decimal literal. -/
def numberOfString (s : String) : Option ℚ :=
  match trimChars s.data with
  | [] => some 0
  | '-' :: cs => (parseDecimal cs).map (fun q => -q)
  | '+' :: cs => parseDecimal cs
  | cs => parseDecimal cs

/-- JS `Number(v)`: numbers are themselves, `null` coerces to `0`, `undefined`
and `NaN` to NaN (`none`), strings via `numberOfString`. -/
def jsToNumber : JsValue → Option ℚ
  | .vnum q => some q
  | .vnan => none
  | .vnull => some 0
  | .vundef => none
  | .vstr s => numberOfString s

/-- JS `typeof v === 'number'`, true also for NaN. -/
def isNumberTyped : JsValue → Bool
  | .vnum _ => true
  | .vnan => true
  | _ => false

/-- Numeric payload of a number-typed value; only consulted on `vnum`/`vnan`. -/
def numOrZero : JsValue → ℚ
  | .vnum q => q
  | _ => 0

/-- Filter operator tags of `types.ts` (`FilterOperator`), extended by `other`
for an arbitrary unrecognized tag, which the `switch` of App.tsx:200-207
handles through its `default` branch. -/
inductive FilterOp where
  | equals
  | contains
  | gt
  | lt
  | between
  | other (tag : String)
deriving DecidableEq

/-- An active filter (`ActiveFilter` of types.ts): target column, operator,
primary value, and the optional second bound (`vundef` when absent). -/
structure ActiveFilter where
  id : String
  column : String
  operator : FilterOp
  value : JsValue
  valueEnd : JsValue
deriving DecidableEq

/-- JS `Number(a) > Number(b)`: false whenever either side is NaN. -/
def jsGtNum (a b : Option ℚ) : Bool :=
  match a, b with
  | some x, some y => decide (y < x)
  | _, _ => false

/-- JS `Number(a) < Number(b)`: false whenever either side is NaN. -/
def jsLtNum (a b : Option ℚ) : Bool :=
  match a, b with
  | some x, some y => decide (x < y)
  | _, _ => false

/-- JS `Number(a) >= Number(b)`: false whenever either side is NaN. -/
def jsGeNum (a b : Option ℚ) : Bool :=
  match a, b with
  | some x, some y => decide (y ≤ x)
  | _, _ => false

/-- JS `Number(a) <= Number(b)`: false whenever either side is NaN. -/
def jsLeNum (a b : Option ℚ) : Bool :=
  match a, b with
  | some x, some y => decide (x ≤ y)
  | _, _ => false

/-- One filter's predicate on one row: the `switch` body of the filter stage,
App.tsx:199-208. -/
def keepRow (f : ActiveFilter) (row : Row) : Bool :=
  let val := getField row f.column
  match f.operator with
  | .equals => stringOfValue val == stringOfValue f.value
  | .contains => jsIncludes (stringOfValue val).toLower (stringOfValue f.value).toLower
  | .gt => jsGtNum (jsToNumber val) (jsToNumber f.value)
  | .lt => jsLtNum (jsToNumber val) (jsToNumber f.value)
  | .between =>
      jsGeNum (jsToNumber val) (jsToNumber f.value) &&
      jsLeNum (jsToNumber val) (jsToNumber f.valueEnd)
  | .other _ => true

/-- Filter stage of `processedRows` (App.tsx:196-210): when at least one filter
is active, keep exactly the rows satisfying every filter. -/
def filterStage (fs : List ActiveFilter) (rows : List Row) : List Row :=
  if 0 < fs.length then rows.filter (fun r => fs.all (fun f => keepRow f r)) else rows

/-- Search stage of `processedRows` (App.tsx:212-215): with a non-empty query,
keep the rows where some field's string form contains the lower-cased query,
case-insensitively. -/
def searchStage (q : String) (rows : List Row) : List Row :=
  if q = "" then rows
  else rows.filter (fun r =>
    (r.map (fun p => p.2)).any (fun v => jsIncludes (stringOfValue v).toLower q.toLower))

/-- Sort direction (`'asc' | 'desc'` of types.ts). -/
inductive SortDir where
  | asc
  | desc
deriving DecidableEq

/-- `SortConfig` of types.ts: target column key (empty = none) and tri-state
direction (`none` models null). -/
structure SortConfig where
  key : String
  direction : Option SortDir
deriving DecidableEq

/-- Comparator-derived order: `a` may precede `b` exactly when the JS
comparator of App.tsx:218-225 is nonpositive on `(a, b)`. Two number-typed
values compare numerically, anything else by locale string comparison,
modelled as code-point order. When a compared number is NaN the JS comparator
returns NaN and the engine's order is unspecified; that branch reads NaN as 0. -/
def sortLe (key : String) (dir : SortDir) (a b : Row) : Bool :=
  let va := getField a key
  let vb := getField b key
  if isNumberTyped va && isNumberTyped vb then
    match dir with
    | .asc => decide (numOrZero va ≤ numOrZero vb)
    | .desc => decide (numOrZero vb ≤ numOrZero va)
  else
    match dir with
    | .asc => decide (stringOfValue va ≤ stringOfValue vb)
    | .desc => decide (stringOfValue vb ≤ stringOfValue va)

/-- Sort stage of `processedRows` (App.tsx:217-226): a stable sort by the
comparator when both a key and a non-null direction are set. -/
def sortStage (sc : SortConfig) (rows : List Row) : List Row :=
  match sc.direction with
  | none => rows
  | some dir => if sc.key = "" then rows else rows.mergeSort (sortLe sc.key dir)

/-- Session-scoped query state feeding `processedRows`: the active filters,
the search text and the sort configuration. -/
structure GridState where
  activeFilters : List ActiveFilter
  searchQuery : String
  sortConfig : SortConfig

/-- The Query Pipeline `processedRows` (App.tsx:192-228): filter, then search,
then sort, never mutating the input sequence. -/
def processedRows (rows : List Row) (st : GridState) : List Row :=
  sortStage st.sortConfig (searchStage st.searchQuery (filterStage st.activeFilters rows))

/-- The fixed row height in pixels (`ROW_HEIGHT`, App.tsx:16). -/
def ROW_HEIGHT : ℚ := 65

/-- The fixed number of buffer rows (`BUFFER_COUNT`, App.tsx:17). -/
def BUFFER_COUNT : ℤ := 5

/-- Output of the viewport windowing computation (`visibleRows` useMemo,
App.tsx:234-245): the slice bounds, the pixel translation of the slice and the
scroll-spacer height. -/
structure WindowResult where
  startIndex : ℤ
  endIndex : ℤ
  offsetTop : ℤ
  totalContentHeight : ℤ
deriving DecidableEq

/-- The windowing arithmetic of the `visibleRows` useMemo (App.tsx:234-245).
Scroll offset and container height are JS floats, modelled as rationals. -/
def computeWindow (totalCount : ℕ) (scrollTop containerHeight : ℚ) : WindowResult :=
  let startIndex : ℤ := max 0 (⌊scrollTop / ROW_HEIGHT⌋ - BUFFER_COUNT)
  let endIndex : ℤ := min (totalCount : ℤ) (⌈(scrollTop + containerHeight) / ROW_HEIGHT⌉ + BUFFER_COUNT)
  { startIndex := startIndex
    endIndex := endIndex
    offsetTop := startIndex * 65
    totalContentHeight := (totalCount : ℤ) * 65 }

/-- The rendered slice (App.tsx:239-242): `processedRows.slice(startIndex,
endIndex)`, each row tagged with `originalIndex = startIndex + i`, its position
in the post-pipeline sequence. Both indices are nonnegative here so JS `slice`
clamping is the `toNat` clamp. -/
def visibleRowsOf (rows : List Row) (scrollTop containerHeight : ℚ) : List (Row × ℕ) :=
  let w := computeWindow rows.length scrollTop containerHeight
  let s := w.startIndex.toNat
  let e := w.endIndex.toNat
  (((rows.drop s).take (e - s)).enum).map (fun p => (p.2, s + p.1))

/-- `handleCellEdit` (App.tsx:313-324) restricted to the active dataset's Row
Store: coerce the raw input to a number when the current cell value is
number-typed (a failed parse stores NaN), then replace the one row at
`rowIndex` copy-on-write. An out-of-range `rowIndex` would throw a TypeError
in JS; it is modelled as the unchanged store. -/
def handleCellEdit (rows : List Row) (rowIndex : ℕ) (column : String) (value : String) : List Row :=
  match rows.get? rowIndex with
  | none => rows
  | some row =>
    let originalValue := getField row column
    let typedValue :=
      if isNumberTyped originalValue then
        match numberOfString value with
        | some q => JsValue.vnum q
        | none => JsValue.vnan
      else JsValue.vstr value
    rows.set rowIndex (setField row column typedValue)

/-- `handleSort` (App.tsx:262-271): the tri-state toggle on the previous sort
configuration. -/
def handleSort (key : String) (prev : SortConfig) : SortConfig :=
  if prev.key = key then
    match prev.direction with
    | some .asc => { key := key, direction := some .desc }
    | some .desc => { key := key, direction := none }
    | none => { key := key, direction := some .asc }
  else { key := key, direction := some .asc }

/-- `clearAllFilters` (App.tsx:260): empty the filter list and blank the search
text; the sort configuration is not touched. -/
def clearAllFilters (st : GridState) : GridState :=
  { st with activeFilters := [], searchQuery := "" }

/-- JS `arr.indexOf(x)` on a string array: the first index holding `x`, or
`-1`. -/
def jsIndexOf (l : List String) (x : String) : ℤ :=
  let i := l.findIdx (fun y => y == x)
  if i < l.length then (i : ℤ) else -1

/-- JS `arr.splice(i, 1)` (result array after deleting one element): a negative
`i` counts from the end, an index past the end deletes nothing. -/
def spliceDelete1 (l : List String) (i : ℤ) : List String :=
  let n : ℤ := l.length
  let s := (if i < 0 then max (n + i) 0 else min i n).toNat
  l.take s ++ l.drop (s + 1)

/-- JS `arr.splice(i, 0, x)` (result array after inserting `x` at `i`): a
negative `i` counts from the end, an index past the end appends. -/
def spliceInsert (l : List String) (i : ℤ) (x : String) : List String :=
  let n : ℤ := l.length
  let s := (if i < 0 then max (n + i) 0 else min i n).toNat
  l.take s ++ x :: l.drop s

/-- `handleColumnDrop` (App.tsx:300-311): its effect on the column order. The
drop is ignored when the dragged name is empty or equals the target; otherwise
the source is deleted at its `indexOf` position and reinserted at the target's
`indexOf` position, both computed in the original order. -/
def handleColumnDrop (order : List String) (sourceCol targetCol : String) : List String :=
  if sourceCol = "" ∨ sourceCol = targetCol then order
  else
    spliceInsert (spliceDelete1 order (jsIndexOf order sourceCol))
      (jsIndexOf order targetCol) sourceCol

/-- Accumulator loop of the `deduplicate` cleaning action (App.tsx:122-129):
`seen` is the set of serialized rows already kept; two rows serialize equally
under `JSON.stringify` exactly when they are equal as ordered key/value lists,
which is how every Row Store row is built. -/
def dedupAux (seen : List Row) : List Row → List Row
  | [] => []
  | r :: rest => if r ∈ seen then dedupAux seen rest else r :: dedupAux (r :: seen) rest

/-- The `deduplicate` bulk cleaning action (App.tsx:122-129). -/
def deduplicateRows (rows : List Row) : List Row := dedupAux [] rows

/-- A parsed JSON value, for modelling `JSON.parse` on the persisted dataset
and session lists. -/
inductive JsonVal where
  | null
  | bool (b : Bool)
  | num (q : ℚ)
  | str (s : String)
  | arr (elems : List JsonVal)
  | obj (fields : List (String × JsonVal))

/-- The opening-brace character of a JSON object. -/
def lbraceChar : Char := Char.ofNat 123

/-- The closing-brace character of a JSON object. -/
def rbraceChar : Char := Char.ofNat 125

/-- Drop leading JSON whitespace. -/
def skipWs (cs : List Char) : List Char :=
  cs.dropWhile (fun c => c == ' ' || c == '\n' || c == '\t' || c == '\r')

/-- Scan a JSON string body up to the closing quote. Escape sequences are not
modelled (the parse fails on a backslash); the claims never exercise them. -/
def scanStringBody : List Char → Option (String × List Char)
  | [] => none
  | c :: t =>
    if c == '"' then some ("", t)
    else if c == '\\' then none
    else (scanStringBody t).map (fun p => (String.mk (c :: p.1.data), p.2))

/-- Scan an unsigned JSON number (digits with optional fraction). -/
def scanNumber (cs : List Char) : Option (ℚ × List Char) :=
  let intPart := cs.takeWhile Char.isDigit
  let rest := cs.dropWhile Char.isDigit
  if intPart.isEmpty then none
  else
    match rest with
    | '.' :: t =>
      let frac := t.takeWhile Char.isDigit
      if frac.isEmpty then none
      else some ((natOfDigits intPart : ℚ) + (natOfDigits frac : ℚ) / (10 : ℚ) ^ frac.length,
        t.dropWhile Char.isDigit)
    | _ => some ((natOfDigits intPart : ℚ), rest)

mutual

/-- Recursive-descent JSON value parse with a fuel bound; `none` models the
`SyntaxError` that `JSON.parse` throws. -/
def parseJsonVal : ℕ → List Char → Option (JsonVal × List Char)
  | 0, _ => none
  | fuel + 1, cs =>
    match skipWs cs with
    | 'n' :: 'u' :: 'l' :: 'l' :: rest => some (.null, rest)
    | 't' :: 'r' :: 'u' :: 'e' :: rest => some (.bool true, rest)
    | 'f' :: 'a' :: 'l' :: 's' :: 'e' :: rest => some (.bool false, rest)
    | '"' :: rest => (scanStringBody rest).map (fun p => (.str p.1, p.2))
    | '-' :: rest => (scanNumber rest).map (fun p => (.num (-p.1), p.2))
    | '[' :: rest =>
      (match skipWs rest with
       | ']' :: rest2 => some (.arr [], rest2)
       | _ => (parseJsonElems fuel rest).map (fun p => (.arr p.1, p.2)))
    | c :: rest =>
      if c == lbraceChar then
        match skipWs rest with
        | c2 :: rest2 =>
          if c2 == rbraceChar then some (.obj [], rest2)
          else (parseJsonFields fuel (c2 :: rest2)).map (fun p => (.obj p.1, p.2))
        | [] => none
      else if c.isDigit then (scanNumber (c :: rest)).map (fun p => (.num p.1, p.2))
      else none
    | [] => none

/-- Parse one or more comma-separated array elements, then the closing
bracket. -/
def parseJsonElems : ℕ → List Char → Option (List JsonVal × List Char)
  | 0, _ => none
  | fuel + 1, cs =>
    match parseJsonVal fuel cs with
    | none => none
    | some (v, rest) =>
      match skipWs rest with
      | ',' :: rest2 => (parseJsonElems fuel rest2).map (fun p => (v :: p.1, p.2))
      | ']' :: rest2 => some ([v], rest2)
      | _ => none

/-- Parse one or more comma-separated `"key": value` object fields, then the
closing brace. -/
def parseJsonFields : ℕ → List Char → Option (List (String × JsonVal) × List Char)
  | 0, _ => none
  | fuel + 1, cs =>
    match skipWs cs with
    | '"' :: rest =>
      (match scanStringBody rest with
       | none => none
       | some (key, rest2) =>
         match skipWs rest2 with
         | ':' :: rest3 =>
           (match parseJsonVal fuel rest3 with
            | none => none
            | some (v, rest4) =>
              match skipWs rest4 with
              | ',' :: rest5 => (parseJsonFields fuel rest5).map (fun p => ((key, v) :: p.1, p.2))
              | c :: rest5 => if c == rbraceChar then some ([(key, v)], rest5) else none
              | [] => none)
         | _ => none)
    | _ => none

end

/-- `JSON.parse(s)`: parse one value and require only whitespace after it;
`none` models the thrown `SyntaxError`. The fuel is generous: every recursive
step either consumes a character or descends past one. -/
def jsonParse (s : String) : Option JsonVal :=
  match parseJsonVal (2 * s.data.length + 4) s.data with
  | some (v, rest) => if (skipWs rest).isEmpty then some v else none
  | none => none

/-- The rehydration performed by the `useState` initializers of App.tsx:25-26:
`JSON.parse(localStorage.getItem(k) || '[]')`. `stored = none` models a missing
key (JS `null`); a stored empty string is falsy and also replaced by `"[]"`.
A `none` result models the uncaught `SyntaxError` that crashes the render. -/
def loadPersisted (stored : Option String) : Option JsonVal :=
  jsonParse (match stored with
    | none => "[]"
    | some s => if s = "" then "[]" else s)

/-- C2: for every totalRowCount, scrollOffset and containerHeight the windowing
computation returns startIndex = max(0, floor(scrollOffset/rowHeight) -
bufferCount), endIndex = min(totalRowCount, ceil((scrollOffset +
containerHeight)/rowHeight) + bufferCount), offsetTop = startIndex * rowHeight
and totalContentHeight = totalRowCount * rowHeight, with rowHeight 65 and
bufferCount 5; 1000 rows at scrollOffset 1300 with containerHeight 650 yield
startIndex 15, endIndex 35 and offsetTop 975. -/
theorem c2_window_formula :
    (∀ (totalRowCount : ℕ) (scrollOffset containerHeight : ℚ),
      computeWindow totalRowCount scrollOffset containerHeight =
        { startIndex := max 0 (⌊scrollOffset / 65⌋ - 5),
          endIndex := min (totalRowCount : ℤ) (⌈(scrollOffset + containerHeight) / 65⌉ + 5),
          offsetTop := max 0 (⌊scrollOffset / 65⌋ - 5) * 65,
          totalContentHeight := (totalRowCount : ℤ) * 65 }) ∧
    computeWindow 1000 1300 650 = ⟨15, 35, 975, 65000⟩ := by
  constructor
  · intro t s h; rfl
  · norm_num [computeWindow, ROW_HEIGHT, BUFFER_COUNT]

/-- C3, counterexample: at totalRowCount 0, scrollOffset 1300 (≥ 0) and
containerHeight 0 (≥ 0) the code yields startIndex 15 and endIndex 0, so the
claimed chain 0 ≤ startIndex ≤ endIndex ≤ totalRowCount fails. -/
theorem c3_window_bounds_counterexample :
    (computeWindow 0 1300 0).startIndex = 15 ∧ (computeWindow 0 1300 0).endIndex = 0 ∧
    ¬ ((computeWindow 0 1300 0).startIndex ≤ (computeWindow 0 1300 0).endIndex) := by
  norm_num [computeWindow, ROW_HEIGHT, BUFFER_COUNT]

/-- C3, amended: for every row count and every scrollOffset ≥ 0 and
containerHeight ≥ 0 with scrollOffset at most totalRowCount * rowHeight (a
scroll position cannot pass the end of the content), the window indices
satisfy 0 ≤ startIndex ≤ endIndex ≤ totalRowCount. -/
theorem c3_window_bounds_amended (totalRowCount : ℕ) (scrollOffset containerHeight : ℚ)
    (hs : 0 ≤ scrollOffset) (hh : 0 ≤ containerHeight)
    (hclamp : scrollOffset ≤ (totalRowCount : ℚ) * 65) :
    0 ≤ (computeWindow totalRowCount scrollOffset containerHeight).startIndex ∧
    (computeWindow totalRowCount scrollOffset containerHeight).startIndex ≤
      (computeWindow totalRowCount scrollOffset containerHeight).endIndex ∧
    (computeWindow totalRowCount scrollOffset containerHeight).endIndex ≤ (totalRowCount : ℤ) := by
  have h65 : (0 : ℚ) < 65 := by norm_num
  have h1 : ⌊scrollOffset / 65⌋ ≤ ⌈(scrollOffset + containerHeight) / 65⌉ := by
    refine le_trans (Int.floor_le_ceil _) (Int.ceil_le_ceil ?_)
    exact div_le_div_of_nonneg_right (le_add_of_nonneg_right hh) h65.le
  have h2 : ⌊scrollOffset / 65⌋ ≤ (totalRowCount : ℤ) := by
    have hq : scrollOffset / 65 ≤ (totalRowCount : ℚ) := by
      rw [div_le_iff₀ h65]; exact hclamp
    have hf := Int.floor_le_floor hq
    rwa [Int.floor_natCast] at hf
  have h3 : (0 : ℤ) ≤ ⌈(scrollOffset + containerHeight) / 65⌉ :=
    Int.ceil_nonneg (div_nonneg (add_nonneg hs hh) h65.le)
  simp only [computeWindow, ROW_HEIGHT, BUFFER_COUNT]
  omega

/-- C3, witness: the amended bounds instantiated at totalRowCount 0,
scrollOffset 0 and containerHeight 0. -/
theorem c3_window_bounds_amended_witness :
    (0 : ℚ) ≤ 0 ∧ (0 : ℚ) ≤ ((0 : ℕ) : ℚ) * 65 ∧
    (0 ≤ (computeWindow 0 0 0).startIndex ∧
     (computeWindow 0 0 0).startIndex ≤ (computeWindow 0 0 0).endIndex ∧
     (computeWindow 0 0 0).endIndex ≤ ((0 : ℕ) : ℤ)) :=
  ⟨le_refl 0, by simp, c3_window_bounds_amended 0 0 0 (le_refl 0) (le_refl 0) (by simp)⟩

/-- C4: the filter stage keeps a row under one filter exactly as claimed:
`equals` compares the string representations for equality, `contains` tests
lower-cased substring containment, `gt`/`lt` hold exactly when both numeric
coercions succeed (are not NaN) and compare strictly, `between` exactly when
all three coercions succeed and the cell value lies in the inclusive range,
and any unrecognized operator tag keeps the row (fail-open). -/
theorem c4_filter_operator_semantics (f : ActiveFilter) (row : Row) :
    keepRow f row = true ↔
      (match f.operator with
      | .equals => stringOfValue (getField row f.column) = stringOfValue f.value
      | .contains => jsIncludes (stringOfValue (getField row f.column)).toLower
          (stringOfValue f.value).toLower = true
      | .gt => ∃ a b : ℚ, jsToNumber (getField row f.column) = some a ∧
          jsToNumber f.value = some b ∧ b < a
      | .lt => ∃ a b : ℚ, jsToNumber (getField row f.column) = some a ∧
          jsToNumber f.value = some b ∧ a < b
      | .between => ∃ a b c : ℚ, jsToNumber (getField row f.column) = some a ∧
          jsToNumber f.value = some b ∧ jsToNumber f.valueEnd = some c ∧
          b ≤ a ∧ a ≤ c
      | .other _ => True) := by
  cases hop : f.operator with
  | equals => simp [keepRow, hop]
  | contains => simp [keepRow, hop]
  | gt =>
    cases hx : jsToNumber (getField row f.column) <;>
      cases hy : jsToNumber f.value <;>
        simp [keepRow, hop, jsGtNum, hx, hy]
  | lt =>
    cases hx : jsToNumber (getField row f.column) <;>
      cases hy : jsToNumber f.value <;>
        simp [keepRow, hop, jsLtNum, hx, hy]
  | between =>
    cases hx : jsToNumber (getField row f.column) <;>
      cases hy : jsToNumber f.value <;>
        cases hz : jsToNumber f.valueEnd <;>
          simp [keepRow, hop, jsGeNum, jsLeNum, hx, hy, hz, and_assoc]
  | other tag => simp [keepRow, hop]

/-- C5: a sort request on the column already held in the configuration cycles
none → ascending → descending → none, and a request on a different column
yields that column ascending whatever the prior state. -/
theorem c5_sort_cycle (key : String) (prev : SortConfig) :
    handleSort key { key := key, direction := none } =
      { key := key, direction := some SortDir.asc } ∧
    handleSort key { key := key, direction := some SortDir.asc } =
      { key := key, direction := some SortDir.desc } ∧
    handleSort key { key := key, direction := some SortDir.desc } =
      { key := key, direction := none } ∧
    (prev.key ≠ key → handleSort key prev = { key := key, direction := some SortDir.asc }) := by
  refine ⟨by simp [handleSort], by simp [handleSort], by simp [handleSort], fun h => ?_⟩
  simp [handleSort, h]

/-- C5, witness: a request on column b after a descending sort on column a. -/
theorem c5_sort_cycle_witness :
    (SortConfig.mk "a" (some SortDir.desc)).key ≠ "b" ∧
    handleSort "b" ⟨"a", some SortDir.desc⟩ = ⟨"b", some SortDir.asc⟩ :=
  ⟨by decide, (c5_sort_cycle "b" ⟨"a", some SortDir.desc⟩).2.2.2 (by decide)⟩

/-- Helper for C6: filtering by one filter and then by a second equals one
filtering pass with the two-filter conjunction. -/
theorem filterStage_pair (rows : List Row) (X Y : ActiveFilter) :
    filterStage [Y] (filterStage [X] rows) = filterStage [X, Y] rows := by
  simp only [filterStage, List.length_cons, List.length_nil, Nat.zero_lt_succ, if_true,
    List.filter_filter]
  apply List.filter_congr
  intro x _
  simp only [List.all_cons, List.all_nil]
  cases keepRow X x <;> cases keepRow Y x <;> rfl

/-- Helper for C6: a two-filter conjunction is order-independent. -/
theorem filterStage_pair_comm (rows : List Row) (X Y : ActiveFilter) :
    filterStage [X, Y] rows = filterStage [Y, X] rows := by
  simp only [filterStage, List.length_cons, Nat.zero_lt_succ, if_true]
  apply List.filter_congr
  intro x _
  simp only [List.all_cons, List.all_nil]
  cases keepRow X x <;> cases keepRow Y x <;> rfl

/-- C6: for every row set and filters A, B, filtering by A then B equals
filtering by B then A, and both equal one filtering pass by the conjunction
[A, B]. -/
theorem c6_filter_conjunction (rows : List Row) (A B : ActiveFilter) :
    filterStage [B] (filterStage [A] rows) = filterStage [A] (filterStage [B] rows) ∧
    filterStage [B] (filterStage [A] rows) = filterStage [A, B] rows :=
  ⟨((filterStage_pair rows A B).trans (filterStage_pair_comm rows A B)).trans
      (filterStage_pair rows B A).symm,
   filterStage_pair rows A B⟩

/-- Helper for C7: the dedup accumulator only consults the membership of its
`seen` argument. -/
theorem dedupAux_congr (l : List Row) : ∀ seen1 seen2 : List Row,
    (∀ x, x ∈ seen1 ↔ x ∈ seen2) → dedupAux seen1 l = dedupAux seen2 l := by
  induction l with
  | nil => intro _ _ _; rfl
  | cons r t ih =>
    intro s1 s2 h
    simp only [dedupAux]
    by_cases hr : r ∈ s1
    · rw [if_pos hr, if_pos ((h r).mp hr), ih s1 s2 h]
    · rw [if_neg hr, if_neg (fun c => hr ((h r).mpr c)), ih (r :: s1) (r :: s2)]
      intro x
      simp [h x]

/-- Helper for C7: marking a row as seen is the same as deleting all of its
later occurrences up front. -/
theorem dedupAux_cons_seen (a : Row) : ∀ (l seen : List Row),
    dedupAux (a :: seen) l = dedupAux seen (l.filter (fun x => decide (x ≠ a))) := by
  intro l
  induction l with
  | nil => intro _; rfl
  | cons r t ih =>
    intro seen
    by_cases hra : r = a
    · subst hra
      rw [List.filter_cons_of_neg (by simp)]
      simp only [dedupAux]
      rw [if_pos (List.mem_cons_self r seen)]
      exact ih seen
    · rw [List.filter_cons_of_pos (by simp [hra])]
      simp only [dedupAux]
      by_cases hrs : r ∈ seen
      · rw [if_pos (List.mem_cons_of_mem a hrs), if_pos hrs]
        exact ih seen
      · have hns : r ∉ a :: seen := by
          intro hc
          rcases List.mem_cons.mp hc with h1 | h2
          · exact hra h1
          · exact hrs h2
        rw [if_neg hns, if_neg hrs]
        congr 1
        rw [dedupAux_congr t (r :: a :: seen) (a :: r :: seen)
          (fun x => by constructor <;> (intro hx; simp at hx ⊢; tauto))]
        exact ih (r :: seen)

/-- Helper for C7: the accumulator keeps only list elements not yet seen. -/
theorem mem_of_mem_dedupAux (x : Row) : ∀ (l seen : List Row),
    x ∈ dedupAux seen l → x ∈ l ∧ x ∉ seen := by
  intro l
  induction l with
  | nil => intro seen h; simp [dedupAux] at h
  | cons r t ih =>
    intro seen h
    simp only [dedupAux] at h
    by_cases hr : r ∈ seen
    · rw [if_pos hr] at h
      have hm := ih seen h
      exact ⟨List.mem_cons_of_mem r hm.1, hm.2⟩
    · rw [if_neg hr] at h
      rcases List.mem_cons.mp h with h1 | h2
      · subst h1; exact ⟨List.mem_cons_self x t, hr⟩
      · have hm := ih (r :: seen) h2
        exact ⟨List.mem_cons_of_mem r hm.1, fun c => hm.2 (List.mem_cons_of_mem r c)⟩

/-- Helper for C7: the deduplicated output has no duplicates. -/
theorem nodup_dedupAux : ∀ (l seen : List Row), (dedupAux seen l).Nodup := by
  intro l
  induction l with
  | nil => intro _; simp [dedupAux]
  | cons r t ih =>
    intro seen
    simp only [dedupAux]
    by_cases hr : r ∈ seen
    · rw [if_pos hr]; exact ih seen
    · rw [if_neg hr]
      refine List.nodup_cons.mpr ⟨fun hc => ?_, ih (r :: seen)⟩
      exact (mem_of_mem_dedupAux r t (r :: seen) hc).2 (List.mem_cons_self r seen)

/-- Helper for C7: deduplication fixes a duplicate-free list disjoint from the
seen set. -/
theorem dedupAux_eq_self : ∀ (l seen : List Row), l.Nodup → (∀ x ∈ l, x ∉ seen) →
    dedupAux seen l = l := by
  intro l
  induction l with
  | nil => intro _ _ _; rfl
  | cons r t ih =>
    intro seen hnd hdisj
    simp only [dedupAux]
    rw [if_neg (hdisj r (List.mem_cons_self r t))]
    congr 1
    refine ih (r :: seen) (List.nodup_cons.mp hnd).2 (fun x hx => ?_)
    intro hc
    rcases List.mem_cons.mp hc with h1 | h2
    · exact (List.nodup_cons.mp hnd).1 (h1 ▸ hx)
    · exact hdisj x (List.mem_cons_of_mem r hx) h2

/-- C7: deduplication compares rows by full structural equality, keeps the
first occurrence and drops every later identical row — the recursion `dedup []
= []` and `dedup (r :: rows) = r :: dedup (rows without the later copies of
r)` characterizes exactly that — and it is idempotent. -/
theorem c7_deduplicate_first_wins_idempotent :
    deduplicateRows ([] : List Row) = [] ∧
    (∀ (r : Row) (rows : List Row),
      deduplicateRows (r :: rows) =
        r :: deduplicateRows (rows.filter (fun x => decide (x ≠ r)))) ∧
    (∀ rows : List Row, deduplicateRows (deduplicateRows rows) = deduplicateRows rows) := by
  refine ⟨rfl, fun r rows => ?_, fun rows => ?_⟩
  · show dedupAux [] (r :: rows) = _
    simp only [dedupAux, List.not_mem_nil, if_false]
    congr 1
    exact dedupAux_cons_seen r rows []
  · exact dedupAux_eq_self (deduplicateRows rows) [] (nodup_dedupAux rows [])
      (fun x _ => List.not_mem_nil x)

/-- C8, counterexample: a non-empty dragged name that is not in the order is
not a no-op — `indexOf` yields -1, `splice(-1, 1)` deletes the last column and
the dragged name is inserted at the target's index: dropping unknown column z
on a over the order [a, b] produces [z, a]. -/
theorem c8_column_drop_counterexample :
    handleColumnDrop ["a", "b"] "z" "a" = ["z", "a"] ∧
    handleColumnDrop ["a", "b"] "z" "a" ≠ ["a", "b"] := by
  constructor
  · decide
  · decide

/-- Helper for C8: inserting an element at any splice position is a
permutation of consing it. -/
theorem spliceInsert_perm (m : List String) (j : ℤ) (x : String) :
    (spliceInsert m j x).Perm (x :: m) := by
  simp only [spliceInsert]
  refine List.Perm.trans List.perm_middle ?_
  rw [List.take_append_drop]

/-- Helper for C8: deleting one element at a valid nonnegative index. -/
theorem spliceDelete1_natCast (l : List String) (i : ℕ) (hi : i ≤ l.length) :
    spliceDelete1 l (i : ℤ) = l.take i ++ l.drop (i + 1) := by
  simp only [spliceDelete1]
  have h0 : ¬ ((i : ℤ) < 0) := by omega
  rw [if_neg h0, min_eq_left (by exact_mod_cast hi), Int.toNat_natCast]

/-- Helper for C8: `indexOf` of a present element is its first index. -/
theorem jsIndexOf_of_mem (order : List String) (s : String) (h : s ∈ order) :
    jsIndexOf order s = ((order.findIdx (fun y => y == s)) : ℤ) := by
  have hi : order.findIdx (fun y => y == s) < order.length :=
    List.findIdx_lt_length_of_exists ⟨s, h, by simp⟩
  simp only [jsIndexOf]
  rw [if_pos hi]

/-- Helper for C8: deleting a present element at its `indexOf` position and
consing it back is a permutation of the original order. -/
theorem cons_spliceDelete1_perm (order : List String) (s : String) (h : s ∈ order) :
    (s :: spliceDelete1 order (jsIndexOf order s)).Perm order := by
  have hi : order.findIdx (fun y => y == s) < order.length :=
    List.findIdx_lt_length_of_exists ⟨s, h, by simp⟩
  have hget : order[order.findIdx (fun y => y == s)] = s := by
    have hb := @List.findIdx_getElem _ (fun y => y == s) order hi
    simpa using hb
  rw [jsIndexOf_of_mem order s h,
    spliceDelete1_natCast order _ (le_of_lt hi)]
  set i := order.findIdx (fun y => y == s) with hidef
  have hsplit : order.take i ++ s :: order.drop (i + 1) = order := by
    rw [← hget, List.getElem_cons_drop, List.take_append_drop]
  refine List.Perm.trans List.perm_middle.symm ?_
  rw [hsplit]

/-- C8, amended: the drop gesture is a no-op when the dragged name is empty or
equals the target; otherwise the source is deleted at its `indexOf` position
and reinserted at the target's `indexOf` position, both computed in the
original order, and whenever the source column is present (and differs from
the target) the result is a permutation of the previous order. A non-empty
source that is not found is not a no-op (see the counterexample). -/
theorem c8_column_reorder_amended (order : List String) (s t : String) :
    (s = "" ∨ s = t → handleColumnDrop order s t = order) ∧
    (¬ (s = "" ∨ s = t) → handleColumnDrop order s t =
        spliceInsert (spliceDelete1 order (jsIndexOf order s)) (jsIndexOf order t) s) ∧
    (s ≠ t → s ∈ order → (handleColumnDrop order s t).Perm order) := by
  refine ⟨fun h => ?_, fun h => ?_, fun hst hmem => ?_⟩
  · unfold handleColumnDrop; rw [if_pos h]
  · unfold handleColumnDrop; rw [if_neg h]
  · by_cases hs : s = ""
    · unfold handleColumnDrop
      rw [if_pos (Or.inl hs)]
    · unfold handleColumnDrop
      rw [if_neg (by tauto)]
      exact (spliceInsert_perm _ _ _).trans (cons_spliceDelete1_perm order s hmem)

/-- C8, witness: dragging present column a onto column b over the order
[a, b], and dropping a on itself. -/
theorem c8_column_reorder_amended_witness :
    (¬ (("a" : String) = "" ∨ ("a" : String) = "b")) ∧ ("a" ∈ ["a", "b"]) ∧
    (("a" : String) ≠ "b") ∧
    handleColumnDrop ["a", "b"] "a" "b" =
      spliceInsert (spliceDelete1 ["a", "b"] (jsIndexOf ["a", "b"] "a"))
        (jsIndexOf ["a", "b"] "b") "a" ∧
    (handleColumnDrop ["a", "b"] "a" "b").Perm ["a", "b"] ∧
    ((("a" : String) = "" ∨ ("a" : String) = "a") ∧
      handleColumnDrop ["a", "b"] "a" "a" = ["a", "b"]) :=
  ⟨by decide, by decide, by decide,
   (c8_column_reorder_amended ["a", "b"] "a" "b").2.1 (by decide),
   (c8_column_reorder_amended ["a", "b"] "a" "b").2.2 (by decide) (by decide),
   Or.inr rfl, (c8_column_reorder_amended ["a", "b"] "a" "a").1 (Or.inr rfl)⟩

/-- C9: the rehydration `JSON.parse(stored || '[]')` yields the empty list for
a missing or empty stored value, but a corrupt stored value (here the
truncated text `[`) makes `JSON.parse` throw — modelled by the `none` result —
so the load crashes instead of defaulting to empty collections. -/
theorem c9_rehydration_crash_on_corrupt :
    loadPersisted none = some (JsonVal.arr []) ∧
    loadPersisted (some "") = some (JsonVal.arr []) ∧
    loadPersisted (some "[") = none :=
  ⟨rfl, rfl, rfl⟩

/-- C10: clearing all filters empties the filter list and blanks the search
text in the same step, leaves the sort configuration unchanged, and the
pipeline on the cleared state is exactly the sort stage applied to the Row
Store order. -/
theorem c10_clear_all_filters (st : GridState) (rows : List Row) :
    (clearAllFilters st).activeFilters = [] ∧
    (clearAllFilters st).searchQuery = "" ∧
    (clearAllFilters st).sortConfig = st.sortConfig ∧
    processedRows rows (clearAllFilters st) = sortStage st.sortConfig rows :=
  ⟨rfl, rfl, rfl, rfl⟩

/-- C1: the claim says a committed cell edit updates the Row Store row that
was displayed at the edited window position. The code does not map the display
position back to a Row Store position: filtering the store [row a=1, row a=2]
by a equals 2 displays the Row Store row 1 at window position 0
(`originalIndex` 0), yet committing the edit value 99 at row index 0 rewrites
Row Store row 0 (the filtered-out a=1 row) and leaves the displayed a=2 row
unchanged. -/
theorem c1_cell_edit_misses_displayed_row :
    processedRows [[("a", JsValue.vnum 1)], [("a", JsValue.vnum 2)]]
      { activeFilters := [⟨"f1", "a", FilterOp.equals, JsValue.vnum 2, JsValue.vundef⟩],
        searchQuery := "", sortConfig := ⟨"", none⟩ } = [[("a", JsValue.vnum 2)]] ∧
    visibleRowsOf [[("a", JsValue.vnum 2)]] 0 650 = [([("a", JsValue.vnum 2)], 0)] ∧
    handleCellEdit [[("a", JsValue.vnum 1)], [("a", JsValue.vnum 2)]] 0 "a" "99"
      = [[("a", JsValue.vnum 99)], [("a", JsValue.vnum 2)]] := by
  refine ⟨by decide, ?_, by decide⟩
  have hw : computeWindow 1 0 650 = ⟨0, 1, 0, 65⟩ := by
    norm_num [computeWindow, ROW_HEIGHT, BUFFER_COUNT]
  simp [visibleRowsOf, hw]
